import Mathlib

/-!
Verification of the Fractals repository (Go): escape-time Mandelbrot/Julia
evaluators, the color mapper, and the zooming viewport state.

Conventions of the shallow embedding:
* Go `float64` arithmetic inside the escape loop is modelled as exact
  rational arithmetic (`ℚ`); every finite `float64` is a rational, so the
  claims' quantification over input points is preserved.
* The transcendental smoothing step (`math.Log`) and the zoom update
  (`math.Pow`) are modelled over `ℝ` with `Real.log` and real exponents.
* Go `int` is `ℤ`; Go's `%` on `int` is truncated remainder, `Int.tmod`.
* Go's `int(f)` conversion of a `float64` truncates toward zero.
-/

namespace Fractals

/-- RGBA color, mirroring Go's `color.RGBA` (four 8-bit channels; we carry
them as naturals, all palette literals are in range). -/
structure RGBA where
  r : ℕ
  g : ℕ
  b : ℕ
  a : ℕ
deriving DecidableEq, Repr

/-- Go `color.RGBA{}`: the zero value, fully transparent black.  This is the
reserved interior color returned by `getColor` outside the palette branch. -/
def zeroRGBA : RGBA := ⟨0, 0, 0, 0⟩

/-- The fixed 16-entry palette `colorMapping` from `src/main.go` lines 35-52
(identical in `src/unnamed/part_000` lines 58-75). -/
def colorMapping : List RGBA :=
  [⟨66, 30, 15, 255⟩,
   ⟨25, 7, 26, 255⟩,
   ⟨9, 1, 47, 255⟩,
   ⟨4, 4, 73, 255⟩,
   ⟨0, 7, 100, 255⟩,
   ⟨12, 44, 138, 255⟩,
   ⟨24, 82, 177, 255⟩,
   ⟨57, 125, 209, 255⟩,
   ⟨134, 181, 229, 255⟩,
   ⟨211, 236, 248, 255⟩,
   ⟨241, 233, 191, 255⟩,
   ⟨248, 201, 95, 255⟩,
   ⟨255, 170, 0, 255⟩,
   ⟨204, 128, 0, 255⟩,
   ⟨153, 87, 0, 255⟩,
   ⟨106, 52, 3, 255⟩]

/-- `getColor(iterations, maxIter int) color.RGBA` from `src/main.go`
lines 54-60: inside `(0, maxIter)` it indexes the palette by
`iterations % len(colorMapping)` (Go `%` on `int` = truncated remainder),
otherwise it returns the zero `color.RGBA{}`.  Go slice indexing is modelled
with `List.getD`; the guard keeps the index in `[0, 16)`. -/
def getColor (iterations maxIter : ℤ) : RGBA :=
  if iterations < maxIter ∧ 0 < iterations then
    colorMapping.getD (Int.tmod iterations 16).toNat zeroRGBA
  else
    zeroRGBA

/-- Go's `int(f)` conversion from `float64`, which truncates toward zero. -/
def intOfFloat (e : ℚ) : ℤ :=
  if 0 ≤ e then ⌊e⌋ else ⌈e⌉

/-- The composition used at `src/main.go` lines 107-108 (`Game.Draw`):
`getColor(int(iterations), maxIter)` — the spec's `map_color`. -/
def mapColor (escapeValue : ℚ) (maxIter : ℤ) : RGBA :=
  getColor (intOfFloat escapeValue) maxIter

/-- The escape loop shared verbatim by `mandelbrot` (`src/main.go` lines
20-25) and `julia` (`src/unnamed/part_000` lines 43-48):

`for x*x+y*y <= 4 && iteration < maxIter { xTemp := x*x - y*y + cx;
 y = 2*x*y + cy; x = xTemp; iteration++ }`

The remaining iteration budget `maxIter - iteration` is the structural
fuel; the returned triple is the final `(x, y, iteration)`. -/
def escapeLoop (cx cy : ℚ) : ℚ → ℚ → ℕ → ℕ → ℚ × ℚ × ℕ
  | x, y, iteration, 0 => (x, y, iteration)
  | x, y, iteration, fuel + 1 =>
    if x * x + y * y ≤ 4 then
      escapeLoop cx cy (x * x - y * y + cx) (2 * x * y + cy) (iteration + 1) fuel
    else
      (x, y, iteration)

/-- The smoothing formula of `src/main.go` lines 28-29:
`logZn := math.Log(x*x+y*y) / 2;
 return float64(iteration) + 1 - math.Log(logZn)/math.Log(2)`. -/
noncomputable def smoothVal (iteration : ℕ) (m : ℝ) : ℝ :=
  (iteration : ℝ) + 1 - Real.log (Real.log m / 2) / Real.log 2

/-- `mandelbrot(cx, cy float64, maxIter int) float64` from `src/main.go`
lines 16-32: run the escape loop from `z = (0,0)`; if the loop stopped
before exhausting `maxIter` apply the smoothing formula to the final
`x*x+y*y`, else return `float64(maxIter)`. -/
noncomputable def mandelbrot (cx cy : ℚ) (maxIter : ℕ) : ℝ :=
  let r := escapeLoop cx cy 0 0 0 maxIter
  if r.2.2 < maxIter then
    smoothVal r.2.2 ((r.1 * r.1 + r.2.1 * r.2.1 : ℚ) : ℝ)
  else
    (maxIter : ℝ)

/-- `julia(x, y, cx, cy float64, maxIter int) float64` from
`src/unnamed/part_000` lines 40-55: the same loop body as `mandelbrot`,
started from `z = (x, y)` with additive constant `(cx, cy)`. -/
noncomputable def julia (x y cx cy : ℚ) (maxIter : ℕ) : ℝ :=
  let r := escapeLoop cx cy x y 0 maxIter
  if r.2.2 < maxIter then
    smoothVal r.2.2 ((r.1 * r.1 + r.2.1 * r.2.1 : ℚ) : ℝ)
  else
    (maxIter : ℝ)

/-- Fractal kind constants of `src/unnamed/part_000` lines 16-20
(`FractalMandelbrot = iota; FractalJulia`). -/
def FractalMandelbrot : ℤ := 0

/-- The Julia member of the fractal kind enumeration. -/
def FractalJulia : ℤ := 1

/-- The `Game` struct of `src/unnamed/part_000` lines 77-85 (the
FractalKind-parameterized variant; `src/main.go`'s struct is the same minus
`juliaX`, `juliaY`, `fractalType`).  The `lastUpdate time.Time` field only
feeds the elapsed-seconds argument and is left outside the state; elapsed
time is passed explicitly to the update step. -/
structure Game where
  minX : ℝ
  maxX : ℝ
  minY : ℝ
  maxY : ℝ
  centerX : ℝ
  centerY : ℝ
  juliaX : ℝ
  juliaY : ℝ
  zoom : ℝ
  zoomSpeed : ℝ
  fractalType : ℤ

/-- The zoom-advance portion of `Game.Update` (`src/main.go` lines 85-86,
identical at `src/unnamed/part_000` lines 112-113):
`g.zoom *= math.Pow(1+g.zoomSpeed, elapsed);
 g.zoom = math.Max(1, math.Min(g.zoom, 1e15))`. -/
noncomputable def gameAdvance (g : Game) (elapsed : ℝ) : Game :=
  { g with zoom := max 1 (min (g.zoom * (1 + g.zoomSpeed) ^ elapsed) 1e15) }

/-- `n` repeated `Game.Update` zoom steps with a fixed elapsed time. -/
noncomputable def advanceIter (g : Game) (elapsed : ℝ) : ℕ → Game
  | 0 => g
  | n + 1 => gameAdvance (advanceIter g elapsed n) elapsed

/-- The slider branch of `Game.Update` (`src/main.go` line 80, identical at
`src/unnamed/part_000` line 105): for a cursor y inside `[70, 270]`,
`g.zoomSpeed = (float64(y-70) / 200) * 0.5`. -/
noncomputable def setZoomRate (y : ℤ) : ℝ :=
  ((y - 70 : ℤ) : ℝ) / 200 * 0.5

/-- `Game.toggleFractal` from `src/unnamed/part_000` lines 118-124:
`g.fractalType = (g.fractalType + 1) % 2; if g.fractalType == FractalJulia
 { g.juliaX = g.centerX; g.juliaY = g.centerY }`. -/
def toggleFractal (g : Game) : Game :=
  let t := Int.tmod (g.fractalType + 1) 2
  if t = FractalJulia then
    { g with fractalType := t, juliaX := g.centerX, juliaY := g.centerY }
  else
    { g with fractalType := t }

/-- The `Game` literal of `main` in `src/unnamed/part_000` lines 216-232.
`fractalType` is not listed in the Go composite literal, so it takes the
`int` zero value `0` (= `FractalMandelbrot`); likewise `juliaX`, `juliaY`
are written as `0.0`. -/
noncomputable def initGame : Game :=
  { minX := -2.5
    maxX := 1.0
    minY := -1.5
    maxY := 1.5
    centerX := 0.42884
    centerY := -0.231345
    juliaX := 0.0
    juliaY := 0.0
    zoom := 0.0
    zoomSpeed := 0.01
    fractalType := 0 }

/-- The `Game` struct of `src/main.go` lines 62-68 (single-fractal
variant; no Julia fields), with elapsed time again passed explicitly. -/
structure GameSingle where
  minX : ℝ
  maxX : ℝ
  minY : ℝ
  maxY : ℝ
  centerX : ℝ
  centerY : ℝ
  zoom : ℝ
  zoomSpeed : ℝ

/-- The `Game` literal of `main` in `src/main.go` lines 154-168. -/
noncomputable def initGameSingle : GameSingle :=
  { minX := -2.5
    maxX := 1.0
    minY := -1.5
    maxY := 1.5
    centerX := -0.7445398603559083806
    centerY := 0.1217237738944248242
    zoom := 0.0
    zoomSpeed := 0.01 }

/-! ### Helper lemmas about the escape loop and the smoothing formula -/

/-- If the loop stopped before spending all its fuel, it stopped because the
loop condition failed, i.e. the final `x*x + y*y` exceeds `4`. -/
theorem escapeLoop_escaped (cx cy : ℚ) (fuel : ℕ) :
    ∀ (x y : ℚ) (iter : ℕ),
      (escapeLoop cx cy x y iter fuel).2.2 < iter + fuel →
      4 < (escapeLoop cx cy x y iter fuel).1 * (escapeLoop cx cy x y iter fuel).1 +
          (escapeLoop cx cy x y iter fuel).2.1 * (escapeLoop cx cy x y iter fuel).2.1 := by
  induction fuel with
  | zero =>
    intro x y iter h
    simp [escapeLoop] at h
  | succ n ih =>
    intro x y iter h
    rw [escapeLoop] at h ⊢
    by_cases hc : x * x + y * y ≤ 4
    · rw [if_pos hc] at h ⊢
      exact ih _ _ _ (by omega)
    · rw [if_neg hc] at h ⊢
      exact lt_of_not_le hc

/-- From the origin with `c = 0` the iterate never moves, so the loop always
spends all its fuel. -/
theorem escapeLoop_origin (fuel : ℕ) :
    ∀ iter : ℕ, escapeLoop 0 0 0 0 iter fuel = (0, 0, iter + fuel) := by
  induction fuel with
  | zero => intro iter; simp [escapeLoop]
  | succ n ih =>
    intro iter
    rw [escapeLoop, if_pos (by norm_num)]
    norm_num
    rw [ih]
    simp only [Prod.mk.injEq]
    exact ⟨trivial, trivial, by omega⟩

/-- The smoothing formula applied to any `m > 4` at iteration `n` yields a
value strictly below `n + 2` (because `log m / 2 > log 2 > 1/2`). -/
theorem smoothVal_lt_add_two (n : ℕ) (m : ℝ) (hm : 4 < m) :
    smoothVal n m < (n : ℝ) + 2 := by
  have hlog2 : 0 < Real.log 2 := Real.log_pos (by norm_num)
  have h4 : Real.log 4 < Real.log m := Real.log_lt_log (by norm_num) hm
  have hlog4 : Real.log 4 = 2 * Real.log 2 := by
    rw [show (4 : ℝ) = 2 ^ 2 by norm_num, Real.log_pow]
    norm_num
  have hhalf : (1 : ℝ) / 2 < Real.log m / 2 := by
    have := Real.log_two_gt_d9
    nlinarith
  have hmono : Real.log (1 / 2) < Real.log (Real.log m / 2) :=
    Real.log_lt_log (by norm_num) hhalf
  have hneg : -Real.log 2 < Real.log (Real.log m / 2) := by
    rwa [show (1 : ℝ) / 2 = 2⁻¹ by norm_num, Real.log_inv] at hmono
  have hdiv : -(Real.log (Real.log m / 2) / Real.log 2) < 1 := by
    rw [← neg_div, div_lt_one hlog2]
    linarith
  unfold smoothVal
  linarith

/-- The generic bound: every `julia` result is strictly below `maxIter + 1`. -/
theorem julia_lt_succ (x y cx cy : ℚ) (N : ℕ) : julia x y cx cy N < (N : ℝ) + 1 := by
  unfold julia
  by_cases h : (escapeLoop cx cy x y 0 N).2.2 < N
  · rw [if_pos h]
    have hm : 4 < (escapeLoop cx cy x y 0 N).1 * (escapeLoop cx cy x y 0 N).1 +
        (escapeLoop cx cy x y 0 N).2.1 * (escapeLoop cx cy x y 0 N).2.1 :=
      escapeLoop_escaped cx cy N x y 0 (by simpa using h)
    have hm' : (4 : ℝ) < (((escapeLoop cx cy x y 0 N).1 * (escapeLoop cx cy x y 0 N).1 +
        (escapeLoop cx cy x y 0 N).2.1 * (escapeLoop cx cy x y 0 N).2.1 : ℚ) : ℝ) := by
      exact_mod_cast hm
    have hs := smoothVal_lt_add_two (escapeLoop cx cy x y 0 N).2.2 _ hm'
    have hle : ((escapeLoop cx cy x y 0 N).2.2 : ℝ) + 2 ≤ (N : ℝ) + 1 := by
      have : (escapeLoop cx cy x y 0 N).2.2 + 1 ≤ N := h
      have := (Nat.cast_le (α := ℝ)).mpr this
      push_cast at this
      linarith
    linarith
  · rw [if_neg h]
    linarith

/-! ### Claim theorems -/

/-- Claim C1, counterexample: the escape value is not always within
`[0, max_iterations]`.  At `(2.1, 0)` with budget `2` the point escapes on
the final budgeted iteration with `|z|² = 4.41` barely above the threshold,
and the smoothed value exceeds `2`; at `(60, 0)` with budget `2` the point
escapes with a huge `|z|² = 3600` and the smoothed value is negative. -/
theorem escape_value_not_in_range :
    (2 : ℝ) < mandelbrot (21 / 10) 0 2 ∧ mandelbrot 60 0 2 < 0 := by
  constructor
  · have hloop : escapeLoop (21 / 10) 0 0 0 0 2 = (21 / 10, 0, 1) := by
      norm_num [escapeLoop]
    have hval : mandelbrot (21 / 10) 0 2 = smoothVal 1 ((441 / 100 : ℚ) : ℝ) := by
      rw [mandelbrot, hloop]
      norm_num
    rw [hval, show ((441 / 100 : ℚ) : ℝ) = 441 / 100 by norm_num]
    have hlog2 : 0 < Real.log 2 := Real.log_pos (by norm_num)
    have hexp2 : Real.exp 2 = Real.exp 1 * Real.exp 1 := by
      rw [← Real.exp_add]; norm_num
    have hLlt : Real.log (441 / 100) < 2 := by
      rw [Real.log_lt_iff_lt_exp (by norm_num), hexp2]
      have := Real.exp_one_gt_d9
      nlinarith
    have hL0 : 0 < Real.log (441 / 100) := Real.log_pos (by norm_num)
    have hneg : Real.log (Real.log (441 / 100) / 2) < 0 :=
      Real.log_neg (by linarith) (by linarith)
    have : Real.log (Real.log (441 / 100) / 2) / Real.log 2 < 0 :=
      div_neg_of_neg_of_pos hneg hlog2
    unfold smoothVal
    push_cast
    linarith
  · have hloop : escapeLoop 60 0 0 0 0 2 = (60, 0, 1) := by
      norm_num [escapeLoop]
    have hval : mandelbrot 60 0 2 = smoothVal 1 ((3600 : ℚ) : ℝ) := by
      rw [mandelbrot, hloop]
      norm_num
    rw [hval, show ((3600 : ℚ) : ℝ) = 3600 by norm_num]
    have hlog2 : 0 < Real.log 2 := Real.log_pos (by norm_num)
    have hexp8 : Real.exp 8 = Real.exp 1 ^ 8 := by
      rw [← Real.exp_nat_mul]; norm_num
    have hexplt : Real.exp 1 ^ 8 < 2.7182818286 ^ 8 :=
      pow_lt_pow_left₀ Real.exp_one_lt_d9 (le_of_lt (Real.exp_pos 1)) (by norm_num)
    have h8 : (8 : ℝ) < Real.log 3600 := by
      rw [Real.lt_log_iff_exp_lt (by norm_num), hexp8]
      calc Real.exp 1 ^ 8 < 2.7182818286 ^ 8 := hexplt
        _ < 3600 := by norm_num
    have hL : (4 : ℝ) < Real.log 3600 / 2 := by linarith
    have hmono : Real.log 4 < Real.log (Real.log 3600 / 2) :=
      Real.log_lt_log (by norm_num) hL
    have hlog4 : Real.log 4 = 2 * Real.log 2 := by
      rw [show (4 : ℝ) = 2 ^ 2 by norm_num, Real.log_pow]
      norm_num
    have hgt : 2 < Real.log (Real.log 3600 / 2) / Real.log 2 := by
      rw [lt_div_iff₀ hlog2]
      nlinarith
    unfold smoothVal
    push_cast
    linarith

/-- Claim C1, amended: for every input point (rational, hence every finite
`float64`) and every iteration budget, both evaluators return a value
strictly less than `max_iterations + 1`; the original interval
`[0, max_iterations]` does not hold (see the counterexample), only this
one-sided bound does. -/
theorem escape_value_lt_succ :
    ∀ (px py cx cy : ℚ) (N : ℕ),
      julia px py cx cy N < (N : ℝ) + 1 ∧ mandelbrot cx cy N < (N : ℝ) + 1 := by
  intro px py cx cy N
  exact ⟨julia_lt_succ px py cx cy N, julia_lt_succ 0 0 cx cy N⟩

/-- Claim C2, counterexample: with `max_iterations = 1` the point `(2, 2)`
is NOT reported as escaped: the loop runs its single budgeted iteration,
`iteration < maxIter` then fails, and the interior branch returns exactly
`1`, not a value strictly less than `1`. -/
theorem mandelbrot_two_two_budget_one_interior :
    mandelbrot 2 2 1 = 1 ∧ ¬ mandelbrot 2 2 1 < 1 := by
  have hloop : escapeLoop 2 2 0 0 0 1 = (2, 2, 1) := by norm_num [escapeLoop]
  have hval : mandelbrot 2 2 1 = 1 := by rw [mandelbrot, hloop]; norm_num
  exact ⟨hval, by rw [hval]; exact lt_irrefl 1⟩

/-- Claim C2, amended: for every `max_iterations >= 2` the Mandelbrot value
at `(2, 2)` is strictly below `max_iterations` (the point escapes after the
first iteration with `|z|² = 8 > 4` and the smoothed count is below `2`);
for `max_iterations = 1` the evaluator returns exactly `1`. -/
theorem mandelbrot_two_two_escapes (N : ℕ) (hN : 2 ≤ N) :
    mandelbrot 2 2 N < (N : ℝ) := by
  obtain ⟨k, rfl⟩ : ∃ k, N = k + 2 := ⟨N - 2, by omega⟩
  have hstuck : ∀ f : ℕ, escapeLoop 2 2 2 2 1 f = (2, 2, 1) := by
    intro f
    cases f with
    | zero => rfl
    | succ n => rw [escapeLoop, if_neg (by norm_num)]
  have hloop : escapeLoop 2 2 0 0 0 (k + 2) = (2, 2, 1) := by
    rw [escapeLoop, if_pos (by norm_num)]
    norm_num [hstuck]
  have hval : mandelbrot 2 2 (k + 2) = smoothVal 1 ((8 : ℚ) : ℝ) := by
    rw [mandelbrot, hloop]
    norm_num
  rw [hval, show ((8 : ℚ) : ℝ) = 8 by norm_num]
  have hlog2 : 0 < Real.log 2 := Real.log_pos (by norm_num)
  have hexp2 : Real.exp 2 = Real.exp 1 * Real.exp 1 := by rw [← Real.exp_add]; norm_num
  have h2lt : (2 : ℝ) < Real.log 8 := by
    rw [Real.lt_log_iff_exp_lt (by norm_num), hexp2]
    have h := Real.exp_one_lt_d9
    have hsq : Real.exp 1 * Real.exp 1 < 2.7182818286 * 2.7182818286 := by
      nlinarith [Real.exp_pos 1]
    nlinarith
  have hL1 : (1 : ℝ) < Real.log 8 / 2 := by linarith
  have hpos : 0 < Real.log (Real.log 8 / 2) := Real.log_pos hL1
  have hdiv : 0 < Real.log (Real.log 8 / 2) / Real.log 2 := div_pos hpos hlog2
  unfold smoothVal
  push_cast
  linarith

/-- Witness for the amended Claim C2 at the concrete budget `2`. -/
theorem mandelbrot_two_two_escapes_witness :
    2 ≤ 2 ∧ mandelbrot 2 2 2 < ((2 : ℕ) : ℝ) :=
  ⟨le_refl 2, mandelbrot_two_two_escapes 2 (le_refl 2)⟩

/-- Claim C7: the origin never escapes under the Mandelbrot iteration and is
reported as an interior point, `mandelbrot 0 0 N = N`, for every budget. -/
theorem mandelbrot_origin_interior : ∀ N : ℕ, mandelbrot 0 0 N = (N : ℝ) := by
  intro N
  rw [mandelbrot, escapeLoop_origin N 0]
  simp

/-- The truncating conversion feeding `getColor` satisfies the guard of the
palette branch exactly when the escape value lies in `[1, maxIter)`. -/
theorem intOfFloat_guard (e : ℚ) (M : ℤ) :
    (intOfFloat e < M ∧ 0 < intOfFloat e) ↔ (1 ≤ e ∧ e < (M : ℚ)) := by
  unfold intOfFloat
  by_cases h : (0 : ℚ) ≤ e
  · rw [if_pos h]
    constructor
    · rintro ⟨h1, h2⟩
      have he1 : ((1 : ℤ) : ℚ) ≤ e := Int.le_floor.mp h2
      exact ⟨by exact_mod_cast he1, Int.floor_lt.mp h1⟩
    · rintro ⟨h1, h2⟩
      refine ⟨Int.floor_lt.mpr h2, ?_⟩
      have : (1 : ℤ) ≤ ⌊e⌋ := Int.le_floor.mpr (by exact_mod_cast h1)
      omega
  · rw [if_neg h]
    push_neg at h
    constructor
    · rintro ⟨h1, h2⟩
      exfalso
      have : ⌈e⌉ ≤ (0 : ℤ) := Int.ceil_le.mpr (by exact_mod_cast h.le)
      omega
    · rintro ⟨h1, h2⟩
      exact absurd (lt_of_lt_of_le h (by linarith)) (lt_irrefl e)

/-- Inside the guard the palette branch never returns the reserved color:
all sixteen palette entries are opaque, hence distinct from it. -/
theorem getColor_ne_zero (i M : ℤ) (h1 : i < M) (h2 : 0 < i) :
    getColor i M ≠ zeroRGBA := by
  unfold getColor
  rw [if_pos ⟨h1, h2⟩]
  have htm : Int.tmod i 16 = i % 16 := Int.tmod_eq_emod h2.le (by norm_num)
  have hn : 0 ≤ i % 16 := Int.emod_nonneg i (by norm_num)
  have hlt : i % 16 < 16 := Int.emod_lt_of_pos i (by norm_num)
  have hfin : ∀ j : Fin 16, colorMapping.getD j.val zeroRGBA ≠ zeroRGBA := by decide
  rw [htm]
  exact hfin ⟨(i % 16).toNat, by omega⟩

/-- Claim C3, counterexample: at escape value `0.5` (inside the claim's
interval `(0, 100)`) the code truncates to `0`, fails the `iterations > 0`
guard and returns the reserved color, whereas the claim prescribes
`palette[floor(0.5) mod 16] = palette[0]`, which differs from it. -/
theorem mapColor_half_reserved :
    mapColor (1 / 2) 100 = zeroRGBA ∧
    colorMapping.getD ((⌊(1 / 2 : ℚ)⌋ % 16).toNat) zeroRGBA ≠ zeroRGBA ∧
    (0 : ℚ) < 1 / 2 ∧ (1 / 2 : ℚ) < 100 := by
  refine ⟨by norm_num [mapColor, getColor, intOfFloat], ?_, by norm_num, by norm_num⟩
  norm_num
  decide

/-- Claim C3, amended: `map_color` returns the reserved fully-transparent
black exactly when `escape_value < 1` or `escape_value >= max_iterations`
(the truncation sends all of `(0, 1)` to the reserved color, not only
`escape_value <= 0`); for `escape_value` in `[1, max_iterations)` it
returns `palette[floor(escape_value) mod 16]`.  The claim's concrete
instances (`0`, `100`, `5.9` against budget `100`) all behave as stated. -/
theorem mapColor_spec (e : ℚ) (M : ℤ) :
    (mapColor e M = zeroRGBA ↔ (e < 1 ∨ (M : ℚ) ≤ e)) ∧
    (1 ≤ e → e < (M : ℚ) → mapColor e M = colorMapping.getD (⌊e⌋ % 16).toNat zeroRGBA) ∧
    mapColor 0 100 = zeroRGBA ∧ mapColor 100 100 = zeroRGBA ∧
    mapColor (59 / 10) 100 = colorMapping.getD 5 zeroRGBA := by
  refine ⟨?_, ?_, ?_, ?_, ?_⟩
  · constructor
    · intro hres
      by_contra hcon
      push_neg at hcon
      obtain ⟨h1, h2⟩ := hcon
      have hg := (intOfFloat_guard e M).mpr ⟨by linarith, by linarith⟩
      exact getColor_ne_zero _ _ hg.1 hg.2 hres
    · intro hor
      unfold mapColor getColor
      rw [if_neg]
      intro hg
      have hge := (intOfFloat_guard e M).mp hg
      rcases hor with h | h
      · linarith [hge.1]
      · linarith [hge.2]
  · intro h1 h2
    unfold mapColor getColor
    have hg := (intOfFloat_guard e M).mpr ⟨h1, h2⟩
    rw [if_pos hg]
    have h0 : (0 : ℚ) ≤ e := by linarith
    have hfl : intOfFloat e = ⌊e⌋ := by unfold intOfFloat; rw [if_pos h0]
    have hpos : 0 < ⌊e⌋ := by rw [← hfl]; exact hg.2
    rw [hfl, Int.tmod_eq_emod hpos.le (by norm_num)]
  · norm_num [mapColor, getColor, intOfFloat]
  · norm_num [mapColor, getColor, intOfFloat]
  · norm_num [mapColor, getColor, intOfFloat]
    decide

/-- Witness for the amended Claim C3 at escape value `3/2` against the
budget `100`: the instance of the specification at a concrete input. -/
theorem mapColor_spec_witness :
    (mapColor (3 / 2) 100 = zeroRGBA ↔ ((3 / 2 : ℚ) < 1 ∨ ((100 : ℤ) : ℚ) ≤ 3 / 2)) ∧
    (1 ≤ (3 / 2 : ℚ) → (3 / 2 : ℚ) < ((100 : ℤ) : ℚ) →
      mapColor (3 / 2) 100 = colorMapping.getD (⌊(3 / 2 : ℚ)⌋ % 16).toNat zeroRGBA) ∧
    mapColor 0 100 = zeroRGBA ∧ mapColor 100 100 = zeroRGBA ∧
    mapColor (59 / 10) 100 = colorMapping.getD 5 zeroRGBA :=
  mapColor_spec (3 / 2) 100

/-- Claim C10: the Julia evaluator started from the origin with auxiliary
constant `(cx, cy)` computes exactly the Mandelbrot value at `(cx, cy)`. -/
theorem julia_origin_eq_mandelbrot :
    ∀ (cx cy : ℚ) (m : ℕ), julia 0 0 cx cy m = mandelbrot cx cy m := by
  intro cx cy m
  rfl

/-- A `Game.Update` zoom step never touches the zoom rate. -/
theorem gameAdvance_zoomSpeed (g : Game) (e : ℝ) :
    (gameAdvance g e).zoomSpeed = g.zoomSpeed := rfl

/-- Iterated zoom steps never touch the zoom rate. -/
theorem advanceIter_zoomSpeed (g : Game) (e : ℝ) :
    ∀ n : ℕ, (advanceIter g e n).zoomSpeed = g.zoomSpeed := by
  intro n
  induction n with
  | zero => rfl
  | succ m ih => rw [advanceIter, gameAdvance_zoomSpeed, ih]

/-- One multiply-then-clamp zoom step, from a zoom inside `[1, 1e15]` with
nonnegative rate and elapsed time: the result does not decrease and stays
inside `[1, 1e15]`. -/
theorem advance_step (z rate e : ℝ) (hr : 0 ≤ rate) (he : 0 ≤ e)
    (h1 : 1 ≤ z) (h15 : z ≤ 1e15) :
    z ≤ max 1 (min (z * (1 + rate) ^ e) 1e15) ∧
    1 ≤ max 1 (min (z * (1 + rate) ^ e) 1e15) ∧
    max 1 (min (z * (1 + rate) ^ e) 1e15) ≤ 1e15 := by
  have hp : 1 ≤ (1 + rate) ^ e := Real.one_le_rpow (by linarith) he
  have hz0 : 0 ≤ z := by linarith
  have hzp : z ≤ z * (1 + rate) ^ e := le_mul_of_one_le_right hz0 hp
  refine ⟨?_, le_max_left _ _, ?_⟩
  · exact le_trans (le_min hzp h15) (le_max_right _ _)
  · exact max_le (by norm_num) (min_le_right _ _)

/-- The clamp interval `[1, 1e15]` is invariant under iterated zoom steps. -/
theorem advanceIter_invariant (g : Game) (elapsed : ℝ)
    (hr : 0 ≤ g.zoomSpeed) (he : 0 ≤ elapsed) (h1 : 1 ≤ g.zoom) (h15 : g.zoom ≤ 1e15) :
    ∀ n : ℕ, 1 ≤ (advanceIter g elapsed n).zoom ∧ (advanceIter g elapsed n).zoom ≤ 1e15 := by
  intro n
  induction n with
  | zero => exact ⟨h1, h15⟩
  | succ m ih =>
    have hs := advanceIter_zoomSpeed g elapsed m
    have step := advance_step (advanceIter g elapsed m).zoom (advanceIter g elapsed m).zoomSpeed
      elapsed (hs ▸ hr) he ih.1 ih.2
    exact ⟨step.2.1, step.2.2⟩

/-- Claim C5: one advance step multiplies the zoom by
`(1 + zoom_rate) ^ elapsed` and clamps it to `[1, 1e15]` (this is the
definition of `gameAdvance`); starting from a zoom inside `[1, 1e15]` with
positive rate and positive elapsed time, the zoom never decreases from one
advance call to the next and lies inside `[1, 1e15]` after every call. -/
theorem zoom_monotone_clamped (g : Game) (elapsed : ℝ)
    (hr : 0 < g.zoomSpeed) (he : 0 < elapsed) (h1 : 1 ≤ g.zoom) (h15 : g.zoom ≤ 1e15) :
    ∀ n : ℕ,
      (advanceIter g elapsed n).zoom ≤ (advanceIter g elapsed (n + 1)).zoom ∧
      1 ≤ (advanceIter g elapsed (n + 1)).zoom ∧
      (advanceIter g elapsed (n + 1)).zoom ≤ 1e15 := by
  intro n
  have inv := advanceIter_invariant g elapsed hr.le he.le h1 h15
  have hs := advanceIter_zoomSpeed g elapsed n
  have step := advance_step (advanceIter g elapsed n).zoom (advanceIter g elapsed n).zoomSpeed
    elapsed (hs ▸ hr.le) he.le (inv n).1 (inv n).2
  exact ⟨step.1, step.2.1, step.2.2⟩

/-- Witness for Claim C5 at the startup state with zoom reset to the legal
value `1`, unit elapsed time and the default rate `0.01`. -/
theorem zoom_monotone_clamped_witness :
    0 < ({ initGame with zoom := 1 } : Game).zoomSpeed ∧ (0 : ℝ) < 1 ∧
    1 ≤ ({ initGame with zoom := 1 } : Game).zoom ∧
    ({ initGame with zoom := 1 } : Game).zoom ≤ 1e15 ∧
    ((advanceIter { initGame with zoom := 1 } 1 0).zoom ≤
        (advanceIter { initGame with zoom := 1 } 1 (0 + 1)).zoom ∧
      1 ≤ (advanceIter { initGame with zoom := 1 } 1 (0 + 1)).zoom ∧
      (advanceIter { initGame with zoom := 1 } 1 (0 + 1)).zoom ≤ 1e15) := by
  have hs : ({ initGame with zoom := 1 } : Game).zoomSpeed = 0.01 := rfl
  have hz : ({ initGame with zoom := 1 } : Game).zoom = 1 := rfl
  refine ⟨by rw [hs]; norm_num, by norm_num, by rw [hz], by rw [hz]; norm_num, ?_⟩
  exact zoom_monotone_clamped { initGame with zoom := 1 } 1 (by rw [hs]; norm_num)
    (by norm_num) (by rw [hz]) (by rw [hz]; norm_num) 0

/-- Claim C6, counterexample: both `main` functions initialize the zoom
field to `0.0`, not to `1`. -/
theorem initial_zoom_not_one :
    initGame.zoom = 0 ∧ initGame.zoom ≠ 1 ∧
    initGameSingle.zoom = 0 ∧ initGameSingle.zoom ≠ 1 := by
  refine ⟨by norm_num [initGame], by norm_num [initGame],
    by norm_num [initGameSingle], by norm_num [initGameSingle]⟩

/-- Claim C6, amended: the startup viewport has the fixed base bounds
`[-2.5, 1] × [-1.5, 1.5]`, the stated initial center, the small positive
zoom rate `0.01`, and zoom `0` — not `1`; the first advance call clamps the
zoom to exactly `1`, so the unzoomed state is only reached after one
update. -/
theorem initial_viewport_state :
    initGame.zoom = 0 ∧ initGame.zoomSpeed = 0.01 ∧ 0 < initGame.zoomSpeed ∧
    initGame.minX = -2.5 ∧ initGame.maxX = 1 ∧ initGame.minY = -1.5 ∧ initGame.maxY = 1.5 ∧
    initGame.centerX = 0.42884 ∧ initGame.centerY = -0.231345 ∧
    initGame.fractalType = FractalMandelbrot ∧
    initGameSingle.zoom = 0 ∧ 0 < initGameSingle.zoomSpeed ∧
    (∀ elapsed : ℝ, (gameAdvance initGame elapsed).zoom = 1) := by
  refine ⟨by norm_num [initGame], rfl, by norm_num [initGame], by norm_num [initGame],
    by norm_num [initGame], by norm_num [initGame], by norm_num [initGame],
    by norm_num [initGame], by norm_num [initGame], rfl,
    by norm_num [initGameSingle], by norm_num [initGameSingle], ?_⟩
  intro e
  show max 1 (min (initGame.zoom * (1 + initGame.zoomSpeed) ^ e) 1e15) = 1
  have h0 : initGame.zoom = 0 := by norm_num [initGame]
  rw [h0, zero_mul, min_eq_left (by norm_num : (0 : ℝ) ≤ 1e15),
    max_eq_left (by norm_num : (0 : ℝ) ≤ 1)]

/-- Claim C8: double toggling restores the fractal kind; a toggle entering
Julia captures the center coordinates of that instant into
`(juliaX, juliaY)`; a toggle leaving Julia does not modify them; and the
only other state-updating operation, the zoom step, modifies neither the
Julia constant nor the center (the center is in fact never mutated by any
operation in the program). -/
theorem toggleFractal_spec (g : Game)
    (hg : g.fractalType = FractalMandelbrot ∨ g.fractalType = FractalJulia) :
    (toggleFractal (toggleFractal g)).fractalType = g.fractalType ∧
    (g.fractalType = FractalMandelbrot →
      (toggleFractal g).fractalType = FractalJulia ∧
      (toggleFractal g).juliaX = g.centerX ∧ (toggleFractal g).juliaY = g.centerY) ∧
    (g.fractalType = FractalJulia →
      (toggleFractal g).fractalType = FractalMandelbrot ∧
      (toggleFractal g).juliaX = g.juliaX ∧ (toggleFractal g).juliaY = g.juliaY) ∧
    (toggleFractal g).centerX = g.centerX ∧ (toggleFractal g).centerY = g.centerY ∧
    (∀ e : ℝ, (gameAdvance g e).juliaX = g.juliaX ∧ (gameAdvance g e).juliaY = g.juliaY ∧
      (gameAdvance g e).centerX = g.centerX ∧ (gameAdvance g e).centerY = g.centerY) := by
  have t1 : Int.tmod 1 2 = 1 := by decide
  have t2 : Int.tmod 2 2 = 0 := by decide
  rcases hg with h | h <;>
    simp [toggleFractal, gameAdvance, h, FractalMandelbrot, FractalJulia, t1, t2]

/-- Witness for Claim C8 at the startup state (kind `Mandelbrot`). -/
theorem toggleFractal_spec_witness :
    (initGame.fractalType = FractalMandelbrot ∨ initGame.fractalType = FractalJulia) ∧
    ((toggleFractal (toggleFractal initGame)).fractalType = initGame.fractalType ∧
    (initGame.fractalType = FractalMandelbrot →
      (toggleFractal initGame).fractalType = FractalJulia ∧
      (toggleFractal initGame).juliaX = initGame.centerX ∧
      (toggleFractal initGame).juliaY = initGame.centerY) ∧
    (initGame.fractalType = FractalJulia →
      (toggleFractal initGame).fractalType = FractalMandelbrot ∧
      (toggleFractal initGame).juliaX = initGame.juliaX ∧
      (toggleFractal initGame).juliaY = initGame.juliaY) ∧
    (toggleFractal initGame).centerX = initGame.centerX ∧
    (toggleFractal initGame).centerY = initGame.centerY ∧
    (∀ e : ℝ, (gameAdvance initGame e).juliaX = initGame.juliaX ∧
      (gameAdvance initGame e).juliaY = initGame.juliaY ∧
      (gameAdvance initGame e).centerX = initGame.centerX ∧
      (gameAdvance initGame e).centerY = initGame.centerY)) :=
  ⟨Or.inl rfl, toggleFractal_spec initGame (Or.inl rfl)⟩

/-- Claim C9: the slider mapping is the linear map
`rate = (pixel_y - y0) / (y1 - y0) * 0.5` with `y0 = 70`, `y1 = 270`:
the top of the slider yields rate `0`, the midpoint `0.25`, the bottom
`0.5`. -/
theorem setZoomRate_spec :
    setZoomRate 70 = 0 ∧ setZoomRate 170 = 0.25 ∧ setZoomRate 270 = 0.5 ∧
    ∀ y : ℤ, setZoomRate y = (((y : ℝ) - 70) / (270 - 70)) * 0.5 := by
  refine ⟨by norm_num [setZoomRate], by norm_num [setZoomRate],
    by norm_num [setZoomRate], ?_⟩
  intro y
  unfold setZoomRate
  push_cast
  ring

end Fractals
